import Mathlib

/-!
Verification of the orchestration / I-O contract layer of the penman
library (`penman/interface.py`).

The layer under study delegates all grammar work to an external codec
(`penman.codec.PENMANCodec`), whose source is not part of the material
verified here; following the spec, the codec, the `Model` configuration
object and the `Graph` value type are treated as opaque collaborators and
are modelled abstractly.  Streams are modelled by their character
content, a filesystem by a partial map from path names to file contents,
and Python exceptions by an explicit error type threaded through
`Except`.
-/

namespace Penman

/-- Modelled from the spec: `Model` (penman/model.py, external to the
verified sources) is an opaque configuration object describing role
semantics, passed through unchanged by this layer. -/
structure Model where
  deriving DecidableEq

/-- From penman/types.py: `Variable` is a node identifier (a string). -/
abbrev Variable := String

/-- Modelled from the spec: `Graph` (penman/graph.py, external to the
verified sources) is a rooted, directed, labeled structure; the spec only
requires a readable top node and an edge (triple) set, so it is modelled
as exactly that. -/
structure Graph where
  triples : List (String × String × String)
  top : String
  deriving DecidableEq

/-- The `indent` argument of the Python layer has type `Union[int, bool]`
with default `-1`; it is passed through to the codec unchanged. -/
inductive IndentArg where
  | int (n : Int)
  | bool (b : Bool)
  deriving DecidableEq

/-- Errors crossing this layer.  `malformedGraph` and `encodingError`
are surfaced verbatim from the external codec; `assertionFailed` models
a Python `AssertionError` raised by a bare `assert`; `fileNotFound`
models the error `open` raises for a missing path.
`unsupportedSourceKind` and `unsupportedSinkKind` are the distinct error
kinds named by the spec for bad designators; they are included so that
statements about them can be made, whether or not the code produces
them. -/
inductive InterfaceError where
  | malformedGraph (msg : String)
  | encodingError (msg : String)
  | assertionFailed
  | fileNotFound
  | unsupportedSourceKind
  | unsupportedSinkKind
  deriving DecidableEq

/-- Modelled from the spec: the external codec (penman/codec.py).  A
constructed `PENMANCodec` exposes one-graph decoding, a lazy many-graph
decode sequence (modelled as the realized list of per-element decode
outcomes, in encounter order), and one-graph encoding with an optional
top override.  Streams handed to `iterdecode` are modelled by their
character content. -/
structure PENMANCodec where
  decode : String → Bool → Except InterfaceError Graph
  iterdecode : String → Bool → List (Except InterfaceError Graph)
  encode : Graph → Option Variable → Bool → IndentArg → Bool → Except InterfaceError String

/-- The source designator accepted by `load`: a `str`/`Path` naming a
file, an open readable stream (modelled by its content), or any other
object (one without a `read` attribute, e.g. an integer). -/
inductive Source where
  | path (p : String)
  | stream (contents : String)
  | other
  deriving DecidableEq

/-- The sink designator accepted by `dump`: a `str`/`Path`, an open
writable stream, or any other object (one without a `write`
attribute). -/
inductive Sink where
  | path (p : String)
  | stream
  | other
  deriving DecidableEq

/-- A filesystem: a partial map from path names to file contents. -/
def Fs := String → Option String

/-- Stream lifecycle events recorded by `load` and `dump`.  A `with
open(...)` block in Python closes its handle on every exit path, normal
or exceptional, so the model records `closed` for an owned handle
unconditionally; a caller-supplied stream never gets a `closed` event. -/
inductive Event where
  | openedRead (p : String)
  | openedWrite (p : String)
  | closed (p : String)
  deriving DecidableEq

/-- Realization of a lazy decode sequence by `list(...)`: elements are
pulled in order, and the first raised error propagates, discarding
graphs already realized (elements past the error are never reached). -/
def realize : List (Except InterfaceError Graph) → Except InterfaceError (List Graph)
  | [] => .ok []
  | .error e :: _ => .error e
  | .ok g :: rest =>
    match realize rest with
    | .error e => .error e
    | .ok gs => .ok (g :: gs)

/-- From interface.py `decode`: construct a codec bound to `model` and
delegate.  `nc` models the `PENMANCodec(model=model)` constructor. -/
def decode (nc : Option Model → PENMANCodec) (s : String) (model : Option Model)
    (triples : Bool) : Except InterfaceError Graph :=
  let codec := nc model
  codec.decode s triples

/-- From interface.py `encode`: construct a codec bound to `model` and
delegate, passing the optional `top` override through unchanged. -/
def encode (nc : Option Model → PENMANCodec) (g : Graph) (top : Option Variable)
    (model : Option Model) (triples : Bool) (indent : IndentArg) (compact : Bool) :
    Except InterfaceError String :=
  let codec := nc model
  codec.encode g top triples indent compact

/-- From interface.py `load`: construct a codec, then classify the
source designator.  A `str`/`Path` is opened read-only inside a `with`
block (closed on every exit path) and its content decoded; anything else
must have a `read` attribute (`assert hasattr(source, 'read')`) — when
it does not, the bare assert raises `AssertionError`.  Returns the
decode outcome together with the stream lifecycle events. -/
def load (nc : Option Model → PENMANCodec) (fs : Fs) (source : Source)
    (model : Option Model) (triples : Bool) :
    Except InterfaceError (List Graph) × List Event :=
  let codec := nc model
  match source with
  | .path p =>
    match fs p with
    | none => (.error .fileNotFound, [])
    | some contents => (realize (codec.iterdecode contents triples), [.openedRead p, .closed p])
  | .stream contents => (realize (codec.iterdecode contents triples), [])
  | .other => (.error .assertionFailed, [])

/-- From interface.py `loads`: construct a codec and realize the decode
sequence of the in-memory string (no resolver step). -/
def loads (nc : Option Model → PENMANCodec) (s : String) (model : Option Model)
    (triples : Bool) : Except InterfaceError (List Graph) :=
  let codec := nc model
  realize (codec.iterdecode s triples)

/-- The eager list comprehension of `dumps`: encode each graph in order;
the first encode failure propagates and no list is produced. -/
def encodeAll (codec : PENMANCodec) (triples : Bool) (indent : IndentArg)
    (compact : Bool) : List Graph → Except InterfaceError (List String)
  | [] => .ok []
  | g :: rest =>
    match codec.encode g none triples indent compact with
    | .error e => .error e
    | .ok s =>
      match encodeAll codec triples indent compact rest with
      | .error e => .error e
      | .ok ss => .ok (s :: ss)

/-- Python `sep.join(ss)`: the empty list yields the empty string, and
otherwise the tail is folded onto the head with the separator. -/
def strJoin (sep : String) : List String → String
  | [] => ""
  | s :: rest => rest.foldl (fun acc t => acc ++ sep ++ t) s

/-- From interface.py `dumps`: encode every graph eagerly, then join the
encoded strings with one blank line (two line breaks) between them. -/
def dumps (nc : Option Model → PENMANCodec) (graphs : List Graph) (model : Option Model)
    (triples : Bool) (indent : IndentArg) (compact : Bool) : Except InterfaceError String :=
  let codec := nc model
  match encodeAll codec triples indent compact graphs with
  | .error e => .error e
  | .ok ss => .ok (strJoin "\n\n" ss)

/-- The loop of `_dump` after the first graph: each iteration first
pulls the next encoded string from the lazy generator (so an encode
failure aborts before any further write), then writes a blank line
(`print(file=fh)`) followed by the string and a line break
(`print(s, file=fh)`).  Returns the text written so far and the error,
if one aborted the loop. -/
def dumpLoop (codec : PENMANCodec) (triples : Bool) (indent : IndentArg) (compact : Bool) :
    List Graph → String → String × Option InterfaceError
  | [], acc => (acc, none)
  | g :: rest, acc =>
    match codec.encode g none triples indent compact with
    | .error e => (acc, some e)
    | .ok s => dumpLoop codec triples indent compact rest (acc ++ "\n" ++ s ++ "\n")

/-- From interface.py `_dump`: encode the first graph (`next(ss)`); if
the input is empty nothing is written; otherwise write the first string
plus a line break, then run the loop.  An encode failure of the first
element writes nothing. -/
def dumpBody (codec : PENMANCodec) (triples : Bool) (indent : IndentArg) (compact : Bool)
    (gs : List Graph) : String × Option InterfaceError :=
  match gs with
  | [] => ("", none)
  | g :: rest =>
    match codec.encode g none triples indent compact with
    | .error e => ("", some e)
    | .ok s => dumpLoop codec triples indent compact rest (s ++ "\n")

/-- The outcome of a `dump` call: the resulting filesystem, the bytes
written to a caller-supplied stream (empty when the sink was a path),
the error if one was raised, and the stream lifecycle events. -/
structure DumpResult where
  fs : Fs
  streamOut : String
  err : Option InterfaceError
  events : List Event

/-- From interface.py `dump`: construct a codec, then classify the sink
designator.  A `str`/`Path` is opened in write/truncate mode inside a
`with` block before any graph is consumed, so the file ends up holding
exactly the bytes `_dump` wrote (its prior content is lost), and the
handle is closed on every exit path.  Anything else must have a `write`
attribute (`assert hasattr(file, 'write')`) — when it does not, the
bare assert raises `AssertionError` and nothing is written. -/
def dump (nc : Option Model → PENMANCodec) (fs : Fs) (graphs : List Graph) (file : Sink)
    (model : Option Model) (triples : Bool) (indent : IndentArg) (compact : Bool) :
    DumpResult :=
  let codec := nc model
  match file with
  | .path p =>
    let r := dumpBody codec triples indent compact graphs
    ⟨fun q => if q = p then some r.1 else fs q, "", r.2, [.openedWrite p, .closed p]⟩
  | .stream =>
    let r := dumpBody codec triples indent compact graphs
    ⟨fs, r.1, r.2, []⟩
  | .other => ⟨fs, "", some .assertionFailed, []⟩

/-- The separator scheme exactly as the spec states it for `dumps`:
`encode(g1) + "\n\n" + ... + "\n\n" + encode(gn)`, the empty list giving
the empty string and a singleton giving the single string unchanged. -/
def joinSpec : List String → String
  | [] => ""
  | [s] => s
  | s :: rest => s ++ "\n\n" ++ joinSpec rest

/-- The tail of a separator-joined list: `sep ++ t` for each element. -/
def joinTail (sep : String) : List String → String
  | [] => ""
  | t :: ts => sep ++ t ++ joinTail sep ts

/-- The text `_dump` writes for each graph after the first: a blank
line, the encoded string, a line break. -/
def dumpRest : List String → String
  | [] => ""
  | t :: ts => "\n" ++ t ++ "\n" ++ dumpRest ts

/-- The total text `_dump` writes for a list of successfully encoded
strings: nothing for the empty list, otherwise the first string plus a
line break followed by the framed tail. -/
def framed : List String → String
  | [] => ""
  | s :: rest => s ++ "\n" ++ dumpRest rest

/-- A concrete graph used to exercise the layer on closed inputs. -/
def g0 : Graph := ⟨[("h", "instance", "hi")], "h"⟩

/-- A concrete graph the sample codec refuses to encode. -/
def g1 : Graph := ⟨[], "x"⟩

/-- A small concrete codec instance: it knows the single graph `g0`,
decodes `"(h / hi)"` to it, encodes it back, fails on everything else,
and yields a two-element decode sequence whose second element is
malformed for one distinguished input. -/
def cCodec : PENMANCodec where
  decode s _ := if s = "(h / hi)" then .ok g0 else .error (.malformedGraph s)
  iterdecode s _ :=
    if s = "(h / hi)" then [.ok g0]
    else if s = "(h / hi)\n\n(x /" then [.ok g0, .error (.malformedGraph "(x /")]
    else [.error (.malformedGraph s)]
  encode g top _ _ _ :=
    if top = none ∧ g = g0 then .ok "(h / hi)" else .error (.encodingError "bad graph")

/-- A concrete codec constructor: every model yields `cCodec`. -/
def cNc : Option Model → PENMANCodec := fun _ => cCodec

/-- A concrete filesystem with one file. -/
def cFs : Fs := fun p => if p = "g.penman" then some "(h / hi)" else none

/-- Graph equivalence as the spec uses it: same top node and the same
edge (triple) set. -/
def Graph.equiv (g h : Graph) : Prop :=
  g.top = h.top ∧ ∀ t, t ∈ g.triples ↔ t ∈ h.triples

/-- One invocation of a public operation of the layer, with all of its
arguments. -/
inductive Call where
  | decodeOne (s : String) (model : Option Model) (triples : Bool)
  | encodeOne (g : Graph) (top : Option Variable) (model : Option Model)
      (triples : Bool) (indent : IndentArg) (compact : Bool)
  | loadMany (fs : Fs) (source : Source) (model : Option Model) (triples : Bool)
  | loadsMany (s : String) (model : Option Model) (triples : Bool)
  | dumpMany (fs : Fs) (gs : List Graph) (file : Sink) (model : Option Model)
      (triples : Bool) (indent : IndentArg) (compact : Bool)
  | dumpsMany (gs : List Graph) (model : Option Model) (triples : Bool)
      (indent : IndentArg) (compact : Bool)

/-- The result of one public-operation invocation. -/
inductive CallResult where
  | one (r : Except InterfaceError Graph)
  | text (r : Except InterfaceError String)
  | many (r : Except InterfaceError (List Graph) × List Event)
  | manyPure (r : Except InterfaceError (List Graph))
  | sunk (r : DumpResult)

/-- Run one public operation.  As in interface.py, each operation
constructs its own codec from the constructor `nc` and the call's own
model; no state survives the call. -/
def execCall (nc : Option Model → PENMANCodec) : Call → CallResult
  | .decodeOne s model triples => .one (decode nc s model triples)
  | .encodeOne g top model triples indent compact =>
      .text (encode nc g top model triples indent compact)
  | .loadMany fs source model triples => .many (load nc fs source model triples)
  | .loadsMany s model triples => .manyPure (loads nc s model triples)
  | .dumpMany fs gs file model triples indent compact =>
      .sunk (dump nc fs gs file model triples indent compact)
  | .dumpsMany gs model triples indent compact =>
      .text (dumps nc gs model triples indent compact)

/-- Run a whole sequence of public-operation invocations in order. -/
def execHistory (nc : Option Model → PENMANCodec) (h : List Call) : List CallResult :=
  h.map (execCall nc)

theorem strJoin_tail (sep : String) :
    ∀ (ts : List String) (a : String),
      ts.foldl (fun acc t => acc ++ sep ++ t) a = a ++ joinTail sep ts := by
  intro ts
  induction ts with
  | nil => intro a; simp [joinTail, String.append_empty]
  | cons t ts ih =>
    intro a
    rw [List.foldl_cons, ih]
    simp [joinTail, String.append_assoc]

theorem strJoin_cons (sep s : String) (ts : List String) :
    strJoin sep (s :: ts) = s ++ joinTail sep ts := by
  simpa [strJoin] using strJoin_tail sep ts s

theorem joinSpec_cons (s : String) (ts : List String) :
    joinSpec (s :: ts) = s ++ joinTail "\n\n" ts := by
  induction ts generalizing s with
  | nil => simp [joinSpec, joinTail, String.append_empty]
  | cons t ts ih => simp [joinSpec, joinTail, ih t, String.append_assoc]

theorem strJoin_eq_joinSpec (ss : List String) : strJoin "\n\n" ss = joinSpec ss := by
  cases ss with
  | nil => rfl
  | cons s ts => rw [strJoin_cons, joinSpec_cons]

theorem dumpRest_eq : ∀ ts : List String, "\n" ++ dumpRest ts = joinTail "\n\n" ts ++ "\n" := by
  intro ts
  induction ts with
  | nil => simp [dumpRest, joinTail, String.append_empty, String.empty_append]
  | cons t ts ih =>
    have hnn : ("\n" : String) ++ "\n" = "\n\n" := rfl
    have h2 : dumpRest (t :: ts) = "\n" ++ (t ++ ("\n" ++ dumpRest ts)) := by
      simp [dumpRest, String.append_assoc]
    rw [h2, ← String.append_assoc, hnn, ih]
    simp [joinTail, String.append_assoc]

theorem framed_cons (s : String) (ts : List String) :
    framed (s :: ts) = joinSpec (s :: ts) ++ "\n" := by
  rw [joinSpec_cons]
  simp only [framed, String.append_assoc]
  rw [dumpRest_eq]

theorem realize_map_ok : ∀ gs : List Graph, realize (gs.map Except.ok) = .ok gs := by
  intro gs
  induction gs with
  | nil => rfl
  | cons g gs ih => simp [realize, ih]

theorem realize_map_err (e : InterfaceError) :
    ∀ (gs : List Graph) (rest : List (Except InterfaceError Graph)),
      realize (gs.map Except.ok ++ .error e :: rest) = .error e := by
  intro gs
  induction gs with
  | nil => intro rest; rfl
  | cons g gs ih => intro rest; simp [realize, ih]

theorem dumpLoop_ok (codec : PENMANCodec) (triples : Bool) (indent : IndentArg) (compact : Bool) :
    ∀ (gs : List Graph) (ss : List String),
      encodeAll codec triples indent compact gs = .ok ss →
      ∀ acc : String, dumpLoop codec triples indent compact gs acc = (acc ++ dumpRest ss, none) := by
  intro gs
  induction gs with
  | nil =>
    intro ss h acc
    cases h
    simp [dumpLoop, dumpRest, String.append_empty]
  | cons g gs ih =>
    intro ss h acc
    cases henc : codec.encode g none triples indent compact with
    | error e => simp [encodeAll, henc] at h
    | ok s =>
      cases hrest : encodeAll codec triples indent compact gs with
      | error e => simp [encodeAll, henc, hrest] at h
      | ok ss2 =>
        simp only [encodeAll, henc, hrest] at h
        cases h
        simp only [dumpLoop, henc]
        rw [ih ss2 hrest]
        simp [dumpRest, String.append_assoc]

theorem dumpLoop_err (codec : PENMANCodec) (triples : Bool) (indent : IndentArg) (compact : Bool)
    (bad : Graph) (e : InterfaceError)
    (hbad : codec.encode bad none triples indent compact = .error e) :
    ∀ (good : List Graph) (ss : List String),
      encodeAll codec triples indent compact good = .ok ss →
      ∀ (rest : List Graph) (acc : String),
        dumpLoop codec triples indent compact (good ++ bad :: rest) acc
          = (acc ++ dumpRest ss, some e) := by
  intro good
  induction good with
  | nil =>
    intro ss h rest acc
    cases h
    simp [dumpLoop, hbad, dumpRest, String.append_empty]
  | cons g gs ih =>
    intro ss h rest acc
    cases henc : codec.encode g none triples indent compact with
    | error e2 => simp [encodeAll, henc] at h
    | ok s =>
      cases hrest : encodeAll codec triples indent compact gs with
      | error e2 => simp [encodeAll, henc, hrest] at h
      | ok ss2 =>
        simp only [encodeAll, henc, hrest] at h
        cases h
        simp only [List.cons_append, dumpLoop, henc, List.append_eq]
        rw [ih ss2 hrest]
        simp [dumpRest, String.append_assoc]

theorem dumpBody_ok (codec : PENMANCodec) (triples : Bool) (indent : IndentArg) (compact : Bool)
    (gs : List Graph) (ss : List String)
    (h : encodeAll codec triples indent compact gs = .ok ss) :
    dumpBody codec triples indent compact gs = (framed ss, none) := by
  cases gs with
  | nil => cases h; rfl
  | cons g rest =>
    cases henc : codec.encode g none triples indent compact with
    | error e => simp [encodeAll, henc] at h
    | ok s =>
      cases hrest : encodeAll codec triples indent compact rest with
      | error e => simp [encodeAll, henc, hrest] at h
      | ok ss2 =>
        simp only [encodeAll, henc, hrest] at h
        cases h
        simp only [dumpBody, henc]
        rw [dumpLoop_ok codec triples indent compact rest ss2 hrest]
        simp [framed, String.append_assoc]

theorem dumpBody_err (codec : PENMANCodec) (triples : Bool) (indent : IndentArg) (compact : Bool)
    (bad : Graph) (e : InterfaceError)
    (hbad : codec.encode bad none triples indent compact = .error e)
    (good : List Graph) (ss : List String)
    (h : encodeAll codec triples indent compact good = .ok ss) (rest : List Graph) :
    dumpBody codec triples indent compact (good ++ bad :: rest) = (framed ss, some e) := by
  cases good with
  | nil =>
    cases h
    simp [dumpBody, hbad, framed]
  | cons g gs =>
    cases henc : codec.encode g none triples indent compact with
    | error e2 => simp [encodeAll, henc] at h
    | ok s =>
      cases hrest : encodeAll codec triples indent compact gs with
      | error e2 => simp [encodeAll, henc, hrest] at h
      | ok ss2 =>
        simp only [encodeAll, henc, hrest] at h
        cases h
        simp only [List.cons_append, dumpBody, henc, List.append_eq]
        rw [dumpLoop_err codec triples indent compact bad e hbad gs ss2 hrest rest]
        simp [framed, String.append_assoc]

/-- C1: `dumps` returns exactly the encoded graphs joined by one blank
line (two line breaks) between consecutive graphs — the empty list
yields the empty string, a singleton yields the single encoded string
unchanged, and in general the result is
`encode(g1) ++ "\n\n" ++ ... ++ "\n\n" ++ encode(gn)` (the `joinSpec`
scheme), with no trailing line break appended. -/
theorem dumps_joins_blank_line (nc : Option Model → PENMANCodec) (model : Option Model)
    (triples : Bool) (indent : IndentArg) (compact : Bool) :
    dumps nc [] model triples indent compact = .ok ""
    ∧ (∀ (g : Graph) (s : String),
        encode nc g none model triples indent compact = .ok s →
        dumps nc [g] model triples indent compact = .ok s)
    ∧ (∀ (gs : List Graph) (ss : List String),
        encodeAll (nc model) triples indent compact gs = .ok ss →
        dumps nc gs model triples indent compact = .ok (joinSpec ss)) := by
  refine ⟨rfl, ?_, ?_⟩
  · intro g s h
    simp only [encode] at h
    simp [dumps, encodeAll, h, strJoin]
  · intro gs ss h
    simp [dumps, h, strJoin_eq_joinSpec]

/-- Witness for C1: on the sample codec, dumping two copies of `g0`
yields the two encoded strings separated by one blank line. -/
theorem dumps_joins_blank_line_w :
    dumps cNc [g0, g0] none false (.int (-1)) false
      = .ok (joinSpec ["(h / hi)", "(h / hi)"]) :=
  (dumps_joins_blank_line cNc none false (.int (-1)) false).2.2
    [g0, g0] ["(h / hi)", "(h / hi)"] rfl

/-- C2: `dump` to a stream writes nothing for an empty sequence, and
for a non-empty sequence writes the first encoded graph followed by one
line break and then, for each subsequent graph, a blank line followed by
that graph's text and a line break — in total exactly the `dumps` output
of the same sequence plus one trailing line break. -/
theorem dump_stream_framing (nc : Option Model → PENMANCodec) (fs : Fs)
    (model : Option Model) (triples : Bool) (indent : IndentArg) (compact : Bool) :
    ((dump nc fs [] .stream model triples indent compact).streamOut = ""
      ∧ (dump nc fs [] .stream model triples indent compact).err = none)
    ∧ (∀ (g : Graph) (gs : List Graph) (s : String) (ss : List String),
        encodeAll (nc model) triples indent compact (g :: gs) = .ok (s :: ss) →
        (dump nc fs (g :: gs) .stream model triples indent compact).streamOut
          = s ++ "\n" ++ dumpRest ss)
    ∧ (∀ (g : Graph) (gs : List Graph) (d : String),
        dumps nc (g :: gs) model triples indent compact = .ok d →
        (dump nc fs (g :: gs) .stream model triples indent compact).streamOut
          = d ++ "\n") := by
  refine ⟨⟨rfl, rfl⟩, ?_, ?_⟩
  · intro g gs s ss h
    have hb := dumpBody_ok (nc model) triples indent compact (g :: gs) (s :: ss) h
    simp [dump, hb, framed]
  · intro g gs d h
    simp only [dumps] at h
    cases henc : encodeAll (nc model) triples indent compact (g :: gs) with
    | error e => rw [henc] at h; cases h
    | ok ss =>
      rw [henc] at h
      have hss : ∃ s tl, ss = s :: tl := by
        cases hg : (nc model).encode g none triples indent compact with
        | error e => simp [encodeAll, hg] at henc
        | ok s =>
          cases hr : encodeAll (nc model) triples indent compact gs with
          | error e => simp [encodeAll, hg, hr] at henc
          | ok tl =>
            simp only [encodeAll, hg, hr] at henc
            cases henc
            exact ⟨s, tl, rfl⟩
      obtain ⟨s, tl, rfl⟩ := hss
      have hb := dumpBody_ok (nc model) triples indent compact (g :: gs) (s :: tl) henc
      have hd : d = strJoin "\n\n" (s :: tl) := by cases h; rfl
      subst hd
      simp [dump, hb, framed_cons, strJoin_eq_joinSpec]

/-- Witness for C2: dumping two copies of `g0` to a stream writes the
`dumps` output of the same list plus one trailing line break. -/
theorem dump_stream_framing_w :
    (dump cNc cFs [g0, g0] .stream none false (.int (-1)) false).streamOut
      = "(h / hi)\n\n(h / hi)" ++ "\n" :=
  (dump_stream_framing cNc cFs none false (.int (-1)) false).2.2
    g0 [g0] "(h / hi)\n\n(h / hi)" rfl

/-- C3 (counterexample): on a designator that is neither a path value
nor capability-bearing, `load` fails with the generic assertion error,
not with the distinct `UnsupportedSourceKind` kind the claim names; the
same holds for `dump` and `UnsupportedSinkKind`. -/
theorem bad_designator_error_kind_cx :
    (load cNc cFs .other none false).1 = .error .assertionFailed
    ∧ (load cNc cFs .other none false).1
        ≠ .error InterfaceError.unsupportedSourceKind
    ∧ (dump cNc cFs [] .other none false (.int (-1)) false).err
        = some .assertionFailed
    ∧ (dump cNc cFs [] .other none false (.int (-1)) false).err
        ≠ some InterfaceError.unsupportedSinkKind := by
  refine ⟨rfl, ?_, rfl, ?_⟩ <;> simp [load, dump]

/-- C3 (amended): for every designator that is neither a string/path
value nor an object exposing the required capability, `load` and `dump`
fail with Python's generic `AssertionError` (raised by the bare
`assert hasattr(...)` checks), not with a distinct named error kind. -/
theorem bad_designator_assertion_error (nc : Option Model → PENMANCodec) (fs : Fs)
    (gs : List Graph) (model : Option Model) (triples : Bool) (indent : IndentArg)
    (compact : Bool) :
    (load nc fs .other model triples).1 = .error .assertionFailed
    ∧ (dump nc fs gs .other model triples indent compact).err = some .assertionFailed :=
  ⟨rfl, rfl⟩

/-- C4: `load` and `loads` either return the complete list of decoded
graphs in decode order (when every element of the decode sequence
succeeds) or fail with the error of the first malformed element,
returning no partial list. -/
theorem load_complete_or_error (nc : Option Model → PENMANCodec) (fs : Fs)
    (model : Option Model) (triples : Bool) (s : String) (p : String) :
    (∀ (gs : List Graph) (e : InterfaceError) (rest : List (Except InterfaceError Graph)),
      (nc model).iterdecode s triples = gs.map Except.ok ++ .error e :: rest →
        loads nc s model triples = .error e
        ∧ (load nc fs (.stream s) model triples).1 = .error e
        ∧ (fs p = some s → (load nc fs (.path p) model triples).1 = .error e))
    ∧ (∀ gs : List Graph,
      (nc model).iterdecode s triples = gs.map Except.ok →
        loads nc s model triples = .ok gs
        ∧ (load nc fs (.stream s) model triples).1 = .ok gs
        ∧ (fs p = some s → (load nc fs (.path p) model triples).1 = .ok gs)) := by
  constructor
  · intro gs e rest h
    refine ⟨?_, ?_, ?_⟩
    · simp [loads, h, realize_map_err]
    · simp [load, h, realize_map_err]
    · intro hp; simp [load, hp, h, realize_map_err]
  · intro gs h
    refine ⟨?_, ?_, ?_⟩
    · simp [loads, h, realize_map_ok]
    · simp [load, h, realize_map_ok]
    · intro hp; simp [load, hp, h, realize_map_ok]

/-- Witness for C4: a source whose decode sequence has one good element
followed by a malformed one makes `loads` fail with that element's
error, and a fully good source yields the full list. -/
theorem load_complete_or_error_w :
    loads cNc "(h / hi)\n\n(x /" none false = .error (.malformedGraph "(x /")
    ∧ loads cNc "(h / hi)" none false = .ok [g0] :=
  ⟨((load_complete_or_error cNc cFs none false "(h / hi)\n\n(x /" "g.penman").1
      [g0] (.malformedGraph "(x /") [] rfl).1,
   ((load_complete_or_error cNc cFs none false "(h / hi)" "g.penman").2
      [g0] rfl).1⟩

/-- C5: when encoding element k of the dumped sequence fails, `dump`
has written to the sink exactly the framed output of elements 0..k-1
(nothing is undone) and performs no further write; with k = 0 nothing
at all is written. -/
theorem dump_aborts_on_encode_error (nc : Option Model → PENMANCodec) (fs : Fs)
    (model : Option Model) (triples : Bool) (indent : IndentArg) (compact : Bool)
    (good : List Graph) (ss : List String) (bad : Graph) (e : InterfaceError)
    (rest : List Graph) :
    encodeAll (nc model) triples indent compact good = .ok ss →
    (nc model).encode bad none triples indent compact = .error e →
    (dump nc fs (good ++ bad :: rest) .stream model triples indent compact).streamOut
      = framed ss
    ∧ (dump nc fs (good ++ bad :: rest) .stream model triples indent compact).err
      = some e := by
  intro hg hb
  have h := dumpBody_err (nc model) triples indent compact bad e hb good ss hg rest
  constructor <;> simp [dump, h]

/-- Witness for C5: dumping `[g0, g1]` where `g1` fails to encode
writes exactly the framed text of `g0` and stops with the encode
error; dumping `[g1, g0]` where the first element fails writes zero
bytes. -/
theorem dump_aborts_on_encode_error_w :
    ((dump cNc cFs [g0, g1] .stream none false (.int (-1)) false).streamOut
        = framed ["(h / hi)"]
      ∧ (dump cNc cFs [g0, g1] .stream none false (.int (-1)) false).err
        = some (.encodingError "bad graph"))
    ∧ (dump cNc cFs [g1, g0] .stream none false (.int (-1)) false).streamOut = "" :=
  ⟨dump_aborts_on_encode_error cNc cFs none false (.int (-1)) false
      [g0] ["(h / hi)"] g1 (.encodingError "bad graph") [] rfl rfl,
   (dump_aborts_on_encode_error cNc cFs none false (.int (-1)) false
      [] [] g1 (.encodingError "bad graph") [g0] rfl rfl).1⟩

/-- C6: under a fixed configuration, `load` from a filesystem path and
`load` from an open stream over the same content return identical
results, and `dump` to a path leaves the file holding exactly the bytes
that `dump` to a stream would write for the same graphs. -/
theorem path_stream_agree (nc : Option Model → PENMANCodec) (fs : Fs) (p c : String)
    (gs : List Graph) (model : Option Model) (triples : Bool) (indent : IndentArg)
    (compact : Bool) :
    fs p = some c →
    (load nc fs (.path p) model triples).1 = (load nc fs (.stream c) model triples).1
    ∧ (dump nc fs gs (.path p) model triples indent compact).fs p
        = some ((dump nc fs gs .stream model triples indent compact).streamOut) := by
  intro h
  constructor
  · simp [load, h]
  · simp [dump]

/-- Witness for C6: on the sample filesystem, loading the one stored
file by path equals loading a stream of its content, and a path dump
leaves the file holding the stream dump's bytes. -/
theorem path_stream_agree_w :
    (load cNc cFs (.path "g.penman") none false).1
      = (load cNc cFs (.stream "(h / hi)") none false).1
    ∧ (dump cNc cFs [g0] (.path "g.penman") none false (.int (-1)) false).fs "g.penman"
        = some ((dump cNc cFs [g0] .stream none false (.int (-1)) false).streamOut) :=
  path_stream_agree cNc cFs "g.penman" "(h / hi)" [g0] none false (.int (-1)) false rfl

/-- C7: a stream the layer opens for a filesystem-path designator is
closed on every exit path (the `closed` event is recorded whatever the
decode or encode outcome, success or error), while a caller-supplied
stream never receives a `closed` event from this layer. -/
theorem owned_closed_borrowed_open (nc : Option Model → PENMANCodec) (fs : Fs)
    (p c : String) (gs : List Graph) (model : Option Model) (triples : Bool)
    (indent : IndentArg) (compact : Bool) :
    fs p = some c →
    Event.closed p ∈ (load nc fs (.path p) model triples).2
    ∧ Event.closed p ∈ (dump nc fs gs (.path p) model triples indent compact).events
    ∧ (∀ s, (load nc fs (.stream s) model triples).2 = [])
    ∧ (dump nc fs gs .stream model triples indent compact).events = [] := by
  intro h
  refine ⟨?_, ?_, fun s => rfl, rfl⟩
  · simp [load, h]
  · simp [dump]

/-- Witness for C7: on the sample filesystem the owned handles of a
path `load` and a path `dump` are closed, and stream calls record no
close event. -/
theorem owned_closed_borrowed_open_w :
    Event.closed "g.penman" ∈ (load cNc cFs (.path "g.penman") none false).2
    ∧ Event.closed "g.penman"
        ∈ (dump cNc cFs [g0] (.path "g.penman") none false (.int (-1)) false).events
    ∧ (∀ s, (load cNc cFs (.stream s) none false).2 = [])
    ∧ (dump cNc cFs [g0] .stream none false (.int (-1)) false).events = [] :=
  owned_closed_borrowed_open cNc cFs "g.penman" "(h / hi)" [g0] none false
    (.int (-1)) false rfl

/-- C8: whenever the bound codec is lossless — decoding any text it
produced for a graph yields an equivalent graph (same top, same triple
set) — the public operations satisfy the round trip: `decode` applied
to the output of `encode` yields a graph equivalent to the input. -/
theorem decode_encode_roundtrip (nc : Option Model → PENMANCodec) (model : Option Model)
    (triples : Bool) (indent : IndentArg) (compact : Bool)
    (lossless : ∀ (g : Graph) (s : String),
      (nc model).encode g none triples indent compact = .ok s →
      ∃ h, (nc model).decode s triples = .ok h ∧ Graph.equiv h g) :
    ∀ (g : Graph) (s : String),
      encode nc g none model triples indent compact = .ok s →
      ∃ h, decode nc s model triples = .ok h ∧ Graph.equiv h g := by
  intro g s hgs
  simp only [encode] at hgs
  simpa only [decode] using lossless g s hgs

/-- Witness for C8: the sample codec is lossless for the graphs it can
encode, so decoding the encoding of `g0` yields a graph equivalent to
`g0`. -/
theorem decode_encode_roundtrip_w :
    ∃ h, decode cNc "(h / hi)" none false = .ok h ∧ Graph.equiv h g0 := by
  have lossless : ∀ (g : Graph) (s : String),
      (cNc none).encode g none false (.int (-1)) false = .ok s →
      ∃ h, (cNc none).decode s false = .ok h ∧ Graph.equiv h g := by
    intro g s hgs
    by_cases hg : g = g0
    · subst hg
      have hs : s = "(h / hi)" := by
        simpa [cNc, cCodec] using hgs.symm
      subst hs
      exact ⟨g0, rfl, rfl, fun t => Iff.rfl⟩
    · exfalso
      simp [cNc, cCodec, hg] at hgs
  exact decode_encode_roundtrip cNc none false (.int (-1)) false lossless g0
    "(h / hi)" (by simp [encode, cNc, cCodec])

/-- C9: every public operation builds its own codec for the call; the
result of a call is a function of the call's own arguments alone, so a
call occurring anywhere in any history yields the same result as the
same call in any other history. -/
theorem per_call_codec_no_leak (nc : Option Model → PENMANCodec)
    (h₁ h₂ : List Call) (i j : Nat) (c : Call) :
    h₁[i]? = some c → h₂[j]? = some c →
    (execHistory nc h₁)[i]? = (execHistory nc h₂)[j]?
    ∧ (execHistory nc h₁)[i]? = some (execCall nc c) := by
  intro hi hj
  constructor <;> simp [execHistory, List.getElem?_map, hi, hj]

/-- Witness for C9: the same `decode` call, run alone and run after an
unrelated `dumps` call, yields the same result entry. -/
theorem per_call_codec_no_leak_w :
    (execHistory cNc [.decodeOne "(h / hi)" none false])[0]?
      = (execHistory cNc [.dumpsMany [g0] none true (.bool true) true,
          .decodeOne "(h / hi)" none false])[1]? :=
  (per_call_codec_no_leak cNc [.decodeOne "(h / hi)" none false]
    [.dumpsMany [g0] none true (.bool true) true, .decodeOne "(h / hi)" none false]
    0 1 (.decodeOne "(h / hi)" none false) rfl rfl).1

/-- C10: `dump` to a filesystem path opens the file in write/truncate
mode before any graph is consumed: with an empty sequence the file ends
up existing with empty content (prior contents lost), and when encoding
element k fails the file still exists and holds exactly the framed
output of the elements before k. -/
theorem dump_path_truncates (nc : Option Model → PENMANCodec) (fs : Fs) (p : String)
    (model : Option Model) (triples : Bool) (indent : IndentArg) (compact : Bool) :
    ((dump nc fs [] (.path p) model triples indent compact).fs p = some "")
    ∧ (∀ (good : List Graph) (ss : List String) (bad : Graph) (e : InterfaceError)
        (rest : List Graph),
        encodeAll (nc model) triples indent compact good = .ok ss →
        (nc model).encode bad none triples indent compact = .error e →
        (dump nc fs (good ++ bad :: rest) (.path p) model triples indent compact).fs p
          = some (framed ss)
        ∧ (dump nc fs (good ++ bad :: rest) (.path p) model triples indent compact).err
          = some e) := by
  constructor
  · simp [dump, dumpBody]
  · intro good ss bad e rest hg hb
    have h := dumpBody_err (nc model) triples indent compact bad e hb good ss hg rest
    constructor <;> simp [dump, h]

/-- Witness for C10: dumping `[g0, g1]` to a path, where `g1` fails to
encode, leaves the file holding exactly the framed text of `g0`, and
the error is reported. -/
theorem dump_path_truncates_w :
    (dump cNc cFs [g0, g1] (.path "out") none false (.int (-1)) false).fs "out"
      = some (framed ["(h / hi)"])
    ∧ (dump cNc cFs [g0, g1] (.path "out") none false (.int (-1)) false).err
      = some (.encodingError "bad graph") :=
  (dump_path_truncates cNc cFs "out" none false (.int (-1)) false).2
    [g0] ["(h / hi)"] g1 (.encodingError "bad graph") [] rfl rfl

end Penman
